import Mathlib

/-!
# Verification of `metronome-audio-to-midi.c`

Shallow embedding of the JACK client `metronome-audio-to-midi.c`, a
beat-to-MIDI-clock converter, together with theorems settling the frozen
claims about it.

Modelling conventions:
* `jack_nframes_t` (a 32-bit unsigned integer) is modelled as `Nat` with
  explicit wraparound: all arithmetic the C program performs on frame
  counters goes through `u32add` / `u32sub`, which reduce modulo `2^32`.
* `float` samples, thresholds, and parameter values are modelled as `ℚ`.
  The claims settled here depend only on order comparisons and on affine
  arithmetic that is exact in IEEE single precision at the magnitudes
  involved, so the rational model is faithful for them.
* The MIDI output buffer is modelled as a list of events, one per call to
  `jack_midi_event_write`; each event records the timestamp argument and
  the bytes actually written (the first `size` bytes of `jbuffer`).
-/

namespace Metronome

/-- `2^32`, the modulus of `jack_nframes_t` arithmetic. -/
def U32 : Nat := 4294967296

/-- Addition of two `jack_nframes_t` values (wraps modulo `2^32`). -/
def u32add (a b : Nat) : Nat := (a + b) % U32

/-- Subtraction of two `jack_nframes_t` values (wraps modulo `2^32`). -/
def u32sub (a b : Nat) : Nat := (a % U32 + (U32 - b % U32)) % U32

/-- The parameters read by the audio thread: the linear rising and falling
thresholds and the refractory time in frames.  In the C program these are
the globals `risingThreshold`, `fallingThreshold`, `lowMinTime_frames`,
written by the control thread. -/
structure Params where
  risingThreshold : ℚ
  fallingThreshold : ℚ
  lowMinTime_frames : Nat
  deriving DecidableEq, Repr

/-- The mutable per-run state owned by the audio thread: the globals
`detectedBeat`, `nDetectedBeats`, `beatMaxAmplitude`, `currBeatStart`,
`currBeatEnd`, `lastBeatStart`, `lastBeatEnd`, `earliestNextBeatStart`,
`framesPerClockTick`, `nextClockTick` of the C program. -/
structure State where
  detectedBeat : Bool
  nDetectedBeats : Nat
  beatMaxAmplitude : ℚ
  currBeatStart : Nat
  currBeatEnd : Nat
  lastBeatStart : Nat
  lastBeatEnd : Nat
  earliestNextBeatStart : Nat
  framesPerClockTick : Nat
  nextClockTick : Nat
  deriving DecidableEq, Repr

/-- The initial values of the globals at program start (C zero-initializes
globals; `detectedBeat = false`, `nDetectedBeats = 0`, all frame counters 0). -/
def initState : State :=
  { detectedBeat := false
    nDetectedBeats := 0
    beatMaxAmplitude := 0
    currBeatStart := 0
    currBeatEnd := 0
    lastBeatStart := 0
    lastBeatEnd := 0
    earliestNextBeatStart := 0
    framesPerClockTick := 0
    nextClockTick := 0 }

/-- One MIDI event as written by `jack_midi_event_write(buffer, time, data, size)`:
the timestamp argument and the bytes written. -/
structure MidiEvent where
  time : Nat
  bytes : List Nat
  deriving DecidableEq, Repr

/-- The 4-byte scratch buffer `jbuffer` set up at the top of `process`:
`jbuffer[0] = 0xF8; jbuffer[1] = 0; jbuffer[2] = 0; jbuffer[3] = 0;`. -/
def jbuffer : List Nat := [0xF8, 0, 0, 0]

/-- The beat-detector portion of the per-sample loop body of `process`
(lines 88–105): the hysteresis state machine with refractory window.
`currFrame` is the transport-relative frame of this sample and
`absoluteInput` is `fabs(in[i])`. -/
def detectStep (p : Params) (currFrame : Nat) (absoluteInput : ℚ)
    (s : State) : State :=
  if s.detectedBeat = false ∧ currFrame > s.earliestNextBeatStart ∧
      absoluteInput > p.risingThreshold then
    let s1 : State :=
      { s with
        detectedBeat := true
        nDetectedBeats := s.nDetectedBeats + 1
        beatMaxAmplitude := absoluteInput
        lastBeatStart := s.currBeatStart
        currBeatStart := currFrame }
    if s1.nDetectedBeats > 1 then
      let fpt := u32sub s1.currBeatStart s1.lastBeatStart / 24
      { s1 with
        framesPerClockTick := fpt
        nextClockTick := u32add currFrame fpt }
    else s1
  else if s.detectedBeat = true ∧ absoluteInput < p.fallingThreshold then
    { s with
      detectedBeat := false
      lastBeatEnd := s.currBeatEnd
      currBeatEnd := currFrame
      earliestNextBeatStart := u32add p.lowMinTime_frames currFrame }
  else s

/-- The clock-emission portion of the per-sample loop body of `process`
(lines 109–112): if `currFrame == nextClockTick && nDetectedBeats > 4`,
write one event (`jack_midi_event_write(midi_out_buffer, 0, jbuffer, 3)`)
and advance `nextClockTick` by `framesPerClockTick`. -/
def tickStep (currFrame : Nat) (s : State) : State × List MidiEvent :=
  if currFrame = s.nextClockTick ∧ s.nDetectedBeats > 4 then
    ({ s with nextClockTick := u32add currFrame s.framesPerClockTick },
      [{ time := 0, bytes := jbuffer.take 3 }])
  else (s, [])

/-- One full iteration of the per-sample loop of `process` (lines 82–113):
detector update, audio passthrough `out[i] = absoluteInput`, then clock
emission.  Returns the new state, the audio output sample, and the MIDI
events written on this sample. -/
def sampleStep (p : Params) (currFrame : Nat) (input : ℚ)
    (s : State) : State × ℚ × List MidiEvent :=
  let absoluteInput := |input|
  let s1 := detectStep p currFrame absoluteInput s
  let r := tickStep currFrame s1
  (r.1, absoluteInput, r.2)

/-- The loop of `process` over the samples of one buffer, starting at
transport frame `currFrame` (`jack_callback_start_frame + i` in the C code,
computed with `jack_nframes_t` wraparound).  Returns the final state, the
audio output samples, and all MIDI events written, in order. -/
def processFrom (p : Params) (currFrame : Nat) (s : State) :
    List ℚ → State × List ℚ × List MidiEvent
  | [] => (s, [], [])
  | x :: xs =>
    let r1 := sampleStep p currFrame x s
    let r2 := processFrom p (u32add currFrame 1) r1.1 xs
    (r2.1, r1.2.1 :: r2.2.1, r1.2.2 ++ r2.2.2)

/-- The `process` callback (lines 62–116): clears the MIDI buffer, runs the
per-sample loop over the input buffer, and returns the host status code
(the C function ends in `return 0;`).  The fourth component is that
status. -/
def process (p : Params) (startFrame : Nat) (s : State)
    (input : List ℚ) : State × List ℚ × List MidiEvent × Int :=
  let r := processFrom p startFrame s input
  (r.1, r.2.1, r.2.2, 0)

/-- `ms_to_frames` (line 55): `((float) sample_rate) * ((float) x) / 1000.0f`,
assigned to a `jack_nframes_t` (truncating conversion; the value is
nonnegative whenever it is used, after the `lowMinTime_ms >= 0` clamp). -/
def ms_to_frames (sample_rate : Nat) (x : ℚ) : Nat :=
  Nat.floor (((sample_rate : ℚ) * x) / 1000)

/-- The raw parameter values owned by the control thread: the globals
`risingThreshold_dB`, `fallingThreshold_dB`, `lowMinTime_ms`, and the UI's
`selectedParameterIndex` (always in `{0, 1, 2}`, clamped by the
`KEY_UP`/`KEY_DOWN` handlers). -/
structure CtrlState where
  risingThreshold_dB : ℚ
  fallingThreshold_dB : ℚ
  lowMinTime_ms : ℚ
  selectedParameterIndex : Nat
  deriving DecidableEq, Repr

/-- The keystrokes handled by the control loop's `switch` (other than
quit): parameter selection and the four step sizes. -/
inductive Key where
  | up
  | down
  | incLarge
  | incSmall
  | decLarge
  | decSmall
  deriving DecidableEq, Repr

/-- `*parameterValuePointers[selectedParameterIndex] += delta`: index 0 is
`risingThreshold_dB`, index 1 is `fallingThreshold_dB`, index 2 is
`lowMinTime_ms`. -/
def adjustSelected (c : CtrlState) (delta : ℚ) : CtrlState :=
  if c.selectedParameterIndex = 0 then
    { c with risingThreshold_dB := c.risingThreshold_dB + delta }
  else if c.selectedParameterIndex = 1 then
    { c with fallingThreshold_dB := c.fallingThreshold_dB + delta }
  else
    { c with lowMinTime_ms := c.lowMinTime_ms + delta }

/-- The keystroke `switch` of the control loop (lines 285–326): `KEY_UP` /
`KEY_DOWN` move the selection, the arrow/step keys adjust the selected
parameter by ±1.0 or ±0.1. -/
def applyKey (k : Key) (c : CtrlState) : CtrlState :=
  match k with
  | Key.up =>
    if c.selectedParameterIndex > 0 then
      { c with selectedParameterIndex := c.selectedParameterIndex - 1 }
    else c
  | Key.down =>
    if c.selectedParameterIndex < 2 then
      { c with selectedParameterIndex := c.selectedParameterIndex + 1 }
    else c
  | Key.incLarge => adjustSelected c 1
  | Key.incSmall => adjustSelected c (mkRat 1 10)
  | Key.decLarge => adjustSelected c (-1)
  | Key.decSmall => adjustSelected c (-(mkRat 1 10))

/-- `if (risingThreshold_dB > 0.0f) risingThreshold_dB = 0.0f;` (line 329). -/
def clampRising (c : CtrlState) : CtrlState :=
  if c.risingThreshold_dB > 0 then { c with risingThreshold_dB := 0 } else c

/-- `if (fallingThreshold_dB < -100.0f) fallingThreshold_dB = -100.0f;`
(line 332). -/
def clampFallingLower (c : CtrlState) : CtrlState :=
  if c.fallingThreshold_dB < -100 then
    { c with fallingThreshold_dB := -100 }
  else c

/-- `if (fallingThreshold_dB > risingThreshold_dB)
fallingThreshold_dB = risingThreshold_dB;` (line 335). -/
def clampFallingUpper (c : CtrlState) : CtrlState :=
  if c.fallingThreshold_dB > c.risingThreshold_dB then
    { c with fallingThreshold_dB := c.risingThreshold_dB }
  else c

/-- `if (lowMinTime_ms < 0.0f) lowMinTime_ms = 0.0f;` (line 338). -/
def clampLowMin (c : CtrlState) : CtrlState :=
  if c.lowMinTime_ms < 0 then { c with lowMinTime_ms := 0 } else c

/-- The clamping pass run on every iteration of the control loop
(lines 329–339): the four clamps above, in source order. -/
def clampPass (c : CtrlState) : CtrlState :=
  clampLowMin (clampFallingUpper (clampFallingLower (clampRising c)))

/-- One control-thread update step: a keystroke followed by the clamping
pass (one iteration of the `while (TRUE)` loop with a pending key). -/
def ctrlStep (k : Key) (c : CtrlState) : CtrlState :=
  clampPass (applyKey k c)

/-- A concrete parameter set used to instantiate theorems with hypotheses
(rising threshold 1/10, falling threshold 1/100, refractory 500 frames). -/
def cP : Params :=
  { risingThreshold := mkRat 1 10
    fallingThreshold := mkRat 1 100
    lowMinTime_frames := 500 }

/-- The detector state at the start of a warmed-up tick cadence: five beats
detected, tick period 1000 frames, next tick due at frame 12. -/
def cTick : State :=
  { initState with
    nDetectedBeats := 5
    framesPerClockTick := 1000
    nextClockTick := 12 }

/-- A Quiet state four beats in, with the previous beat start at frame
24000, used to instantiate the period re-measurement part of C1. -/
def cMeas : State :=
  { initState with
    nDetectedBeats := 4
    currBeatStart := 24000
    earliestNextBeatStart := 30000 }

/-- One event of the interleaved two-thread execution: either the audio
thread processes one sample at a transport frame, or the control thread
republishes the parameters the audio thread reads. -/
inductive Ev where
  | sample (frame : Nat) (x : ℚ)
  | ctrl (p : Params)
  deriving DecidableEq, Repr

/-- Run of the interleaved execution: sample events advance the audio
thread's state with the currently published parameters; control events
replace the published parameters and leave the audio state untouched (the
control thread never writes detector state). -/
def runEv : List Ev → Params × State → Params × State
  | [], ps => ps
  | Ev.sample f x :: rest, (p, s) => runEv rest (p, (sampleStep p f x s).1)
  | Ev.ctrl p2 :: rest, (_, s) => runEv rest (p2, s)

/-- Iterating the per-sample loop body over `n` consecutive transport
frames `a, a+1, ...`, reading the input sample at frame `f` from an
envelope `m` (the audio thread's processing across buffer boundaries, with
non-wrapping frame counters). -/
def runEnv (p : Params) (m : Nat → ℚ) : Nat → Nat → State → State
  | _, 0, s => s
  | a, n + 1, s => runEnv p m (a + 1) n (sampleStep p a (m a) s).1

/-- A concrete interleaved run used by the C5 witness: a beat starts at
frame 5, the control thread changes the refractory time, and the beat ends
at frame 8 (setting the refractory window). -/
def cEvs : List Ev :=
  [Ev.sample 5 1,
   Ev.ctrl { risingThreshold := mkRat 1 10
             fallingThreshold := mkRat 1 100
             lowMinTime_frames := 300 },
   Ev.sample 8 0]

/-- `samplesLEb b l` holds when every sample event in `l` is at a frame
`≤ b`. -/
def samplesLEb (b : Nat) : List Ev → Bool
  | [] => true
  | Ev.sample f _ :: r => decide (f ≤ b) && samplesLEb b r
  | Ev.ctrl _ :: r => samplesLEb b r

end Metronome

namespace Metronome

/-! ## Basic lemmas about the `jack_nframes_t` model -/

theorem u32add_eq_add {a b : Nat} (h : a + b < U32) : u32add a b = a + b := by
  unfold u32add
  exact Nat.mod_eq_of_lt h

theorem u32sub_eq_sub {a b : Nat} (ha : a < U32) (hb : b ≤ a) :
    u32sub a b = a - b := by
  unfold u32sub
  have hbU : b < U32 := lt_of_le_of_lt hb ha
  rw [Nat.mod_eq_of_lt ha, Nat.mod_eq_of_lt hbU]
  have h1 : a + (U32 - b) = (a - b) + U32 := by omega
  rw [h1, Nat.add_mod_right]
  exact Nat.mod_eq_of_lt (by omega)

/-! ## Generic step lemmas, shared by several claims -/

/-- A sample that satisfies neither trigger condition leaves the detector
state unchanged when the detector is Quiet. -/
theorem detectStep_quiet_noop (p : Params) (f : Nat) (m : ℚ) (s : State)
    (hq : s.detectedBeat = false)
    (h : ¬(f > s.earliestNextBeatStart ∧ m > p.risingThreshold)) :
    detectStep p f m s = s := by
  unfold detectStep
  rw [if_neg (fun hc => h ⟨hc.2.1, hc.2.2⟩),
    if_neg (fun hc => by rw [hq] at hc; exact absurd hc.1 (by simp))]

/-- A sample whose magnitude does not fall below the falling threshold
leaves the detector state unchanged when the detector is InBeat. -/
theorem detectStep_inbeat_noop (p : Params) (f : Nat) (m : ℚ) (s : State)
    (hb : s.detectedBeat = true)
    (h : ¬ m < p.fallingThreshold) :
    detectStep p f m s = s := by
  unfold detectStep
  rw [if_neg (fun hc => by rw [hb] at hc; exact absurd hc.1 (by simp)),
    if_neg (fun hc => h hc.2)]

/-- The state component of one sample step is the tick step applied to the
detector step. -/
theorem sampleStep_fst (p : Params) (f : Nat) (x : ℚ) (s : State) :
    (sampleStep p f x s).1 = (tickStep f (detectStep p f (|x|) s)).1 := rfl

/-- `tickStep` touches only `nextClockTick`. -/
theorem tickStep_fields (f : Nat) (s : State) :
    (tickStep f s).1.detectedBeat = s.detectedBeat ∧
    (tickStep f s).1.nDetectedBeats = s.nDetectedBeats ∧
    (tickStep f s).1.earliestNextBeatStart = s.earliestNextBeatStart ∧
    (tickStep f s).1.currBeatStart = s.currBeatStart ∧
    (tickStep f s).1.currBeatEnd = s.currBeatEnd := by
  unfold tickStep
  split_ifs <;> exact ⟨rfl, rfl, rfl, rfl, rfl⟩

/-- The Quiet → InBeat transition on a first beat (no period measurement
yet). -/
theorem detectStep_trigger_first (p : Params) (f : Nat) (m : ℚ) (s : State)
    (hq : s.detectedBeat = false) (hf : f > s.earliestNextBeatStart)
    (hm : m > p.risingThreshold) (hn : s.nDetectedBeats = 0) :
    detectStep p f m s =
      { s with
        detectedBeat := true
        nDetectedBeats := s.nDetectedBeats + 1
        beatMaxAmplitude := m
        lastBeatStart := s.currBeatStart
        currBeatStart := f } := by
  unfold detectStep
  rw [if_pos ⟨hq, hf, hm⟩, if_neg (by dsimp only; omega)]

/-- The InBeat → Quiet transition. -/
theorem detectStep_fall (p : Params) (f : Nat) (m : ℚ) (s : State)
    (hb : s.detectedBeat = true) (hm : m < p.fallingThreshold) :
    detectStep p f m s =
      { s with
        detectedBeat := false
        lastBeatEnd := s.currBeatEnd
        currBeatEnd := f
        earliestNextBeatStart := u32add p.lowMinTime_frames f } := by
  unfold detectStep
  rw [if_neg (fun hc => by rw [hb] at hc; exact absurd hc.1 (by simp)),
    if_pos ⟨hb, hm⟩]

/-- The InBeat → Quiet transition keeps the beat count. -/
theorem detectStep_fall_nd (p : Params) (f : Nat) (m : ℚ) (s : State)
    (hb : s.detectedBeat = true) (hm : m < p.fallingThreshold) :
    (detectStep p f m s).nDetectedBeats = s.nDetectedBeats := by
  rw [detectStep_fall p f m s hb hm]

/-- The InBeat → Quiet transition sets the refractory window end. -/
theorem detectStep_fall_e (p : Params) (f : Nat) (m : ℚ) (s : State)
    (hb : s.detectedBeat = true) (hm : m < p.fallingThreshold) :
    (detectStep p f m s).earliestNextBeatStart =
      u32add p.lowMinTime_frames f := by
  rw [detectStep_fall p f m s hb hm]

/-- Trichotomy of the effect of one sample on the detector fields: either
the detector fields are unchanged, or a Quiet → InBeat transition happened
(leaving `earliestNextBeatStart` unchanged and strictly below the current
frame), or an InBeat → Quiet transition happened (setting
`earliestNextBeatStart` to the refractory window end). -/
theorem sampleStep_detector_cases (p : Params) (f : Nat) (x : ℚ)
    (s : State) :
    ((sampleStep p f x s).1.detectedBeat = s.detectedBeat ∧
      (sampleStep p f x s).1.earliestNextBeatStart =
        s.earliestNextBeatStart) ∨
    (s.detectedBeat = false ∧ (sampleStep p f x s).1.detectedBeat = true ∧
      f > s.earliestNextBeatStart ∧
      (sampleStep p f x s).1.earliestNextBeatStart =
        s.earliestNextBeatStart) ∨
    (s.detectedBeat = true ∧ (sampleStep p f x s).1.detectedBeat = false ∧
      (sampleStep p f x s).1.earliestNextBeatStart =
        u32add p.lowMinTime_frames f) := by
  have hts := tickStep_fields f (detectStep p f (|x|) s)
  have hsamp : (sampleStep p f x s).1 = (tickStep f (detectStep p f (|x|) s)).1 := rfl
  rw [hsamp, hts.1, hts.2.2.1]
  unfold detectStep
  by_cases h1 : s.detectedBeat = false ∧ f > s.earliestNextBeatStart ∧
      |x| > p.risingThreshold
  · rw [if_pos h1]
    by_cases h2 : s.nDetectedBeats + 1 > 1
    · rw [if_pos (by dsimp only; omega)]
      exact Or.inr (Or.inl ⟨h1.1, rfl, h1.2.1, rfl⟩)
    · rw [if_neg (by dsimp only; omega)]
      exact Or.inr (Or.inl ⟨h1.1, rfl, h1.2.1, rfl⟩)
  · rw [if_neg h1]
    by_cases h3 : s.detectedBeat = true ∧ |x| < p.fallingThreshold
    · rw [if_pos h3]
      exact Or.inr (Or.inr ⟨h3.1, rfl, rfl⟩)
    · rw [if_neg h3]
      exact Or.inl ⟨rfl, rfl⟩

/-- One sample never moves `earliestNextBeatStart` backwards, provided the
refractory-window end does not wrap and, when InBeat, the window end is
below the current frame (the run invariant). -/
theorem sampleStep_earliest_mono (p : Params) (f : Nat) (x : ℚ) (s : State)
    (hinv : s.detectedBeat = true → s.earliestNextBeatStart < f)
    (hbound : p.lowMinTime_frames + f < U32) :
    s.earliestNextBeatStart ≤
      (sampleStep p f x s).1.earliestNextBeatStart := by
  rcases sampleStep_detector_cases p f x s with h | h | h
  · rw [h.2]
  · rw [h.2.2.2]
  · rw [h.2.2, u32add_eq_add hbound]
    have := hinv h.1
    omega

/-- Runs compose: processing the concatenation of two event lists equals
processing them in sequence. -/
theorem runEv_append (l1 l2 : List Ev) :
    ∀ ps, runEv (l1 ++ l2) ps = runEv l2 (runEv l1 ps) := by
  induction l1 with
  | nil => intro ps; rfl
  | cons e r ih =>
    intro ps
    obtain ⟨p, s⟩ := ps
    cases e with
    | sample f x =>
      show runEv (r ++ l2) (p, (sampleStep p f x s).1) =
        runEv l2 (runEv r (p, (sampleStep p f x s).1))
      exact ih _
    | ctrl p2 =>
      show runEv (r ++ l2) (p2, s) = runEv l2 (runEv r (p2, s))
      exact ih _

/-- Run invariant: if every sample frame of the run is at most `b`, and the
initial state, when InBeat, has its refractory window end strictly below
`b`, then the same holds of the final state. -/
theorem runEv_inv (b : Nat) :
    ∀ (l : List Ev) (p : Params) (s : State),
    samplesLEb b l = true →
    (s.detectedBeat = true → s.earliestNextBeatStart < b) →
    ((runEv l (p, s)).2.detectedBeat = true →
      (runEv l (p, s)).2.earliestNextBeatStart < b) := by
  intro l
  induction l with
  | nil => intro p s _ hinv; exact hinv
  | cons e r ih =>
    intro p s hle hinv
    cases e with
    | sample f x =>
      have hle' : (decide (f ≤ b) && samplesLEb b r) = true := hle
      have hf : f ≤ b := of_decide_eq_true ((Bool.and_eq_true _ _).mp hle').1
      have hr : samplesLEb b r = true := ((Bool.and_eq_true _ _).mp hle').2
      show (runEv r (p, (sampleStep p f x s).1)).2.detectedBeat = true →
        (runEv r (p, (sampleStep p f x s).1)).2.earliestNextBeatStart < b
      refine ih p (sampleStep p f x s).1 hr ?_
      intro hdb
      rcases sampleStep_detector_cases p f x s with h | h | h
      · rw [h.2]
        exact hinv (by rw [← h.1]; exact hdb)
      · rw [h.2.2.2]
        have := h.2.2.1
        omega
      · rw [h.2.1] at hdb
        exact absurd hdb (by simp)
    | ctrl p2 =>
      show (runEv r (p2, s)).2.detectedBeat = true →
        (runEv r (p2, s)).2.earliestNextBeatStart < b
      exact ih p2 s hle hinv

/-- Frame-runner runs compose. -/
theorem runEnv_add (p : Params) (m : Nat → ℚ) :
    ∀ (n1 n2 a : Nat) (s : State),
    runEnv p m a (n1 + n2) s =
      runEnv p m (a + n1) n2 (runEnv p m a n1 s) := by
  intro n1
  induction n1 with
  | zero =>
    intro n2 a s
    rw [Nat.zero_add]
    rfl
  | succ k ih =>
    intro n2 a s
    have h1 : k + 1 + n2 = (k + n2) + 1 := by omega
    rw [h1]
    show runEnv p m (a + 1) (k + n2) (sampleStep p a (m a) s).1 =
      runEnv p m (a + (k + 1)) n2 (runEnv p m (a + 1) k (sampleStep p a (m a) s).1)
    rw [ih n2 (a + 1) (sampleStep p a (m a) s).1]
    have h2 : a + 1 + k = a + (k + 1) := by omega
    rw [h2]

/-- A one-frame run is one sample step. -/
theorem runEnv_one (p : Params) (m : Nat → ℚ) (a : Nat) (s : State) :
    runEnv p m a 1 s = (sampleStep p a (m a) s).1 := rfl

/-- Over a stretch of frames on which the Quiet trigger condition never
holds, the detector fields are unchanged. -/
theorem runEnv_quiet_stay (p : Params) (m : Nat → ℚ) :
    ∀ (n a : Nat) (s : State),
    s.detectedBeat = false →
    (∀ f, a ≤ f → f < a + n →
      ¬(f > s.earliestNextBeatStart ∧ |m f| > p.risingThreshold)) →
    (runEnv p m a n s).detectedBeat = false ∧
    (runEnv p m a n s).nDetectedBeats = s.nDetectedBeats ∧
    (runEnv p m a n s).earliestNextBeatStart = s.earliestNextBeatStart := by
  intro n
  induction n with
  | zero => intro a s hq _; exact ⟨hq, rfl, rfl⟩
  | succ k ih =>
    intro a s hq hcond
    have hstep : detectStep p a (|m a|) s = s :=
      detectStep_quiet_noop p a (|m a|) s hq
        (hcond a (le_refl a) (by omega))
    have hts := tickStep_fields a s
    have hs1 : (sampleStep p a (m a) s).1 = (tickStep a s).1 := by
      show (tickStep a (detectStep p a (|m a|) s)).1 = (tickStep a s).1
      rw [hstep]
    show (runEnv p m (a + 1) k (sampleStep p a (m a) s).1).detectedBeat = false ∧
      (runEnv p m (a + 1) k (sampleStep p a (m a) s).1).nDetectedBeats =
        s.nDetectedBeats ∧
      (runEnv p m (a + 1) k (sampleStep p a (m a) s).1).earliestNextBeatStart =
        s.earliestNextBeatStart
    rw [hs1]
    obtain ⟨h1, h2, h3⟩ := ih (a + 1) (tickStep a s).1
      (by rw [hts.1]; exact hq)
      (by
        intro f hf1 hf2
        rw [hts.2.2.1]
        exact hcond f (by omega) (by omega))
    exact ⟨h1, by rw [h2, hts.2.1], by rw [h3, hts.2.2.1]⟩

/-- Over a stretch of frames on which the magnitude never falls below the
falling threshold, an InBeat detector's fields are unchanged. -/
theorem runEnv_inbeat_stay (p : Params) (m : Nat → ℚ) :
    ∀ (n a : Nat) (s : State),
    s.detectedBeat = true →
    (∀ f, a ≤ f → f < a + n → ¬(|m f| < p.fallingThreshold)) →
    (runEnv p m a n s).detectedBeat = true ∧
    (runEnv p m a n s).nDetectedBeats = s.nDetectedBeats ∧
    (runEnv p m a n s).earliestNextBeatStart = s.earliestNextBeatStart ∧
    (runEnv p m a n s).currBeatStart = s.currBeatStart := by
  intro n
  induction n with
  | zero => intro a s hb _; exact ⟨hb, rfl, rfl, rfl⟩
  | succ k ih =>
    intro a s hb hcond
    have hstep : detectStep p a (|m a|) s = s :=
      detectStep_inbeat_noop p a (|m a|) s hb
        (hcond a (le_refl a) (by omega))
    have hts := tickStep_fields a s
    have hs1 : (sampleStep p a (m a) s).1 = (tickStep a s).1 := by
      show (tickStep a (detectStep p a (|m a|) s)).1 = (tickStep a s).1
      rw [hstep]
    show (runEnv p m (a + 1) k (sampleStep p a (m a) s).1).detectedBeat = true ∧
      (runEnv p m (a + 1) k (sampleStep p a (m a) s).1).nDetectedBeats =
        s.nDetectedBeats ∧
      (runEnv p m (a + 1) k (sampleStep p a (m a) s).1).earliestNextBeatStart =
        s.earliestNextBeatStart ∧
      (runEnv p m (a + 1) k (sampleStep p a (m a) s).1).currBeatStart =
        s.currBeatStart
    rw [hs1]
    obtain ⟨h1, h2, h3, h4⟩ := ih (a + 1) (tickStep a s).1
      (by rw [hts.1]; exact hb)
      (by
        intro f hf1 hf2
        exact hcond f (by omega) (by omega))
    exact ⟨h1, by rw [h2, hts.2.1], by rw [h3, hts.2.2.1],
      by rw [h4, hts.2.2.2.1]⟩

/-- Tick cadence over a stretch with no detector transition: starting Quiet
below the rising threshold, with the tick period at 1000 frames, more than
four beats counted, and the next tick not yet due, the number of events
written over the stretch is exactly the number of multiples of 1000 past
`nextClockTick` that the stretch covers, and the final state differs from
the initial one only in `nextClockTick`, advanced by 1000 per event. -/
theorem processFrom_cadence_aux (p : Params) :
    ∀ (xs : List ℚ) (a : Nat) (s : State),
    s.detectedBeat = false →
    (∀ x ∈ xs, ¬ (|x| > p.risingThreshold)) →
    s.nDetectedBeats > 4 →
    s.framesPerClockTick = 1000 →
    a ≤ s.nextClockTick →
    a + xs.length < U32 →
    s.nextClockTick + 1000 * xs.length < U32 →
    (processFrom p a s xs).2.2.length
        = (xs.length - (s.nextClockTick - a) + 999) / 1000 ∧
    (processFrom p a s xs).1 =
      { s with nextClockTick :=
          s.nextClockTick + 1000 * (processFrom p a s xs).2.2.length } := by
  intro xs
  induction xs with
  | nil =>
    intro a s hq hx hc hfpt ht hb htb
    constructor
    · show (0 : Nat) = (0 - (s.nextClockTick - a) + 999) / 1000
      omega
    · show s = { s with nextClockTick := s.nextClockTick + 1000 * 0 }
      simp
  | cons x xs ih =>
    intro a s hq hx hc hfpt ht hb htb
    have hlen : (x :: xs).length = xs.length + 1 := rfl
    rw [hlen] at hb htb
    have hstep : detectStep p a (|x|) s = s :=
      detectStep_quiet_noop p a (|x|) s hq
        (fun hc2 => hx x (List.mem_cons_self x xs) hc2.2)
    have ha1 : u32add a 1 = a + 1 := u32add_eq_add (by omega)
    have ihx : ∀ y ∈ xs, ¬ (|y| > p.risingThreshold) :=
      fun y hy => hx y (List.mem_cons_of_mem x hy)
    have hunfold :
        processFrom p a s (x :: xs) =
          ((processFrom p (u32add a 1) (sampleStep p a x s).1 xs).1,
            (sampleStep p a x s).2.1 ::
              (processFrom p (u32add a 1) (sampleStep p a x s).1 xs).2.1,
            (sampleStep p a x s).2.2 ++
              (processFrom p (u32add a 1) (sampleStep p a x s).1 xs).2.2) :=
      rfl
    by_cases htick : a = s.nextClockTick
    · -- the tick fires on this sample
      have h1 : sampleStep p a x s =
          ({ s with nextClockTick := a + 1000 }, |x|,
            [{ time := 0, bytes := jbuffer.take 3 }]) := by
        unfold sampleStep tickStep
        dsimp only
        rw [hstep, if_pos ⟨htick, hc⟩, hfpt,
          u32add_eq_add (by omega : a + 1000 < U32)]
      obtain ⟨ihlen, ihstate⟩ :=
        ih (a + 1) { s with nextClockTick := a + 1000 } hq ihx hc hfpt
          (by dsimp only; omega) (by omega) (by dsimp only; omega)
      dsimp only at ihlen ihstate
      rw [hunfold, h1, ha1]
      dsimp only
      rw [List.length_append]
      dsimp only [List.length_cons, List.length_nil]
      constructor
      · rw [ihlen]
        omega
      · rw [ihstate, ihlen]
        have heq : a + 1000 + 1000 * ((xs.length - (a + 1000 - (a + 1)) + 999) / 1000)
            = s.nextClockTick +
              1000 * (1 + (xs.length - (a + 1000 - (a + 1)) + 999) / 1000) := by
          omega
        rw [heq]
    · -- no tick on this sample
      have h1 : sampleStep p a x s = (s, |x|, []) := by
        unfold sampleStep tickStep
        dsimp only
        rw [hstep, if_neg (fun hc2 => htick hc2.1)]
      obtain ⟨ihlen, ihstate⟩ :=
        ih (a + 1) s hq ihx hc hfpt (by omega) (by omega) (by omega)
      rw [hunfold, h1, ha1]
      dsimp only
      rw [List.nil_append]
      constructor
      · rw [ihlen]
        omega
      · exact ihstate

end Metronome

namespace Metronome

/-! ## C8: unconditional magnitude passthrough -/

/-- **C8.** For every input sample and every detector state, the audio
output sample written for that index equals the magnitude (absolute value)
of the corresponding input sample, unmodified by whether a beat-start or
beat-end transition occurred on that sample. -/
theorem passthrough_magnitude (p : Params) (currFrame : Nat) (input : ℚ)
    (s : State) : (sampleStep p currFrame input s).2.1 = |input| := by
  unfold sampleStep
  rfl

/-! ## C9: millisecond-to-frame derivation -/

/-- **C9.** With sample rate 48000 and `lowMinTime_ms = 20`, the derived
`lowMinTime_frames` equals exactly 960, following
`frames = sampleRate × ms / 1000`. -/
theorem ms_to_frames_48k_20ms : ms_to_frames 48000 20 = 960 := by
  unfold ms_to_frames
  norm_num

/-! ## C3: the Quiet → InBeat transition -/

/-- **C3.** For every sample processed while the detector is in the Quiet
state (`inBeat` false): the detector transitions to InBeat exactly when the
current frame `f` satisfies `f > earliestNextBeatStartFrame` and the
sample's magnitude `m` satisfies `m > risingThreshold`; on that transition
`beatCount` is incremented by one, the previous `currentBeatStart` is
shifted into `lastBeatStart`, `currentBeatStart` is set to `f`, and a
period measurement `currentBeatStart - lastBeatStart` (consumed as the new
tick period) is produced exactly when this is at least the second detected
beat. -/
theorem quiet_to_inbeat_spec (p : Params) (f : Nat) (m : ℚ) (s : State)
    (hq : s.detectedBeat = false) :
    ((detectStep p f m s).detectedBeat = true ↔
      (f > s.earliestNextBeatStart ∧ m > p.risingThreshold))
    ∧ (f > s.earliestNextBeatStart ∧ m > p.risingThreshold →
        (detectStep p f m s).nDetectedBeats = s.nDetectedBeats + 1 ∧
        (detectStep p f m s).lastBeatStart = s.currBeatStart ∧
        (detectStep p f m s).currBeatStart = f ∧
        (2 ≤ s.nDetectedBeats + 1 →
          (detectStep p f m s).framesPerClockTick =
            u32sub f s.currBeatStart / 24 ∧
          (detectStep p f m s).nextClockTick =
            u32add f (u32sub f s.currBeatStart / 24)) ∧
        (s.nDetectedBeats + 1 < 2 →
          (detectStep p f m s).framesPerClockTick = s.framesPerClockTick ∧
          (detectStep p f m s).nextClockTick = s.nextClockTick))
    ∧ (¬(f > s.earliestNextBeatStart ∧ m > p.risingThreshold) →
        detectStep p f m s = s) := by
  by_cases hcond : f > s.earliestNextBeatStart ∧ m > p.risingThreshold
  · by_cases hn : s.nDetectedBeats + 1 > 1
    · have hstep : detectStep p f m s =
          { s with
            detectedBeat := true
            nDetectedBeats := s.nDetectedBeats + 1
            beatMaxAmplitude := m
            lastBeatStart := s.currBeatStart
            currBeatStart := f
            framesPerClockTick := u32sub f s.currBeatStart / 24
            nextClockTick := u32add f (u32sub f s.currBeatStart / 24) } := by
        unfold detectStep
        rw [if_pos ⟨hq, hcond.1, hcond.2⟩, if_pos hn]
      refine ⟨?_, ?_, ?_⟩
      · rw [hstep]
        exact ⟨fun _ => hcond, fun _ => rfl⟩
      · intro _
        rw [hstep]
        refine ⟨rfl, rfl, rfl, fun _ => ⟨rfl, rfl⟩, fun habs => absurd habs (by omega)⟩
      · intro habs
        exact absurd hcond habs
    · have hstep : detectStep p f m s =
          { s with
            detectedBeat := true
            nDetectedBeats := s.nDetectedBeats + 1
            beatMaxAmplitude := m
            lastBeatStart := s.currBeatStart
            currBeatStart := f } := by
        unfold detectStep
        rw [if_pos ⟨hq, hcond.1, hcond.2⟩, if_neg hn]
      refine ⟨?_, ?_, ?_⟩
      · rw [hstep]
        exact ⟨fun _ => hcond, fun _ => rfl⟩
      · intro _
        rw [hstep]
        exact ⟨rfl, rfl, rfl, fun habs => absurd habs (by omega), fun _ => ⟨rfl, rfl⟩⟩
      · intro habs
        exact absurd hcond habs
  · have hstep : detectStep p f m s = s := by
      unfold detectStep
      rw [if_neg (by
        intro hc
        exact hcond ⟨hc.2.1, hc.2.2⟩), if_neg (by
        intro hc
        rw [hq] at hc
        exact absurd hc.1 (by simp))]
    refine ⟨?_, fun habs => absurd habs hcond, fun _ => hstep⟩
    rw [hstep, hq]
    exact ⟨fun h => absurd h (by simp), fun h => absurd h hcond⟩

/-- Witness for C3 at concrete input: parameters `cP`, frame 5, magnitude 1,
state `initState` (which is Quiet with `earliestNextBeatStart = 0`). -/
theorem quiet_to_inbeat_spec_witness :
    initState.detectedBeat = false ∧
    (((detectStep cP 5 1 initState).detectedBeat = true ↔
      (5 > initState.earliestNextBeatStart ∧ (1 : ℚ) > cP.risingThreshold))
    ∧ (5 > initState.earliestNextBeatStart ∧ (1 : ℚ) > cP.risingThreshold →
        (detectStep cP 5 1 initState).nDetectedBeats =
          initState.nDetectedBeats + 1 ∧
        (detectStep cP 5 1 initState).lastBeatStart =
          initState.currBeatStart ∧
        (detectStep cP 5 1 initState).currBeatStart = 5 ∧
        (2 ≤ initState.nDetectedBeats + 1 →
          (detectStep cP 5 1 initState).framesPerClockTick =
            u32sub 5 initState.currBeatStart / 24 ∧
          (detectStep cP 5 1 initState).nextClockTick =
            u32add 5 (u32sub 5 initState.currBeatStart / 24)) ∧
        (initState.nDetectedBeats + 1 < 2 →
          (detectStep cP 5 1 initState).framesPerClockTick =
            initState.framesPerClockTick ∧
          (detectStep cP 5 1 initState).nextClockTick =
            initState.nextClockTick))
    ∧ (¬(5 > initState.earliestNextBeatStart ∧ (1 : ℚ) > cP.risingThreshold) →
        detectStep cP 5 1 initState = initState)) :=
  ⟨rfl, quiet_to_inbeat_spec cP 5 1 initState rfl⟩

/-! ## C4: the InBeat → Quiet transition -/

/-- **C4.** For every sample processed while the detector is in the InBeat
state (`inBeat` true): the detector transitions back to Quiet exactly when
the sample's magnitude `m` satisfies `m < fallingThreshold`; on that
transition the previous `currentBeatEnd` is shifted into `lastBeatEnd`,
`currentBeatEnd` is set to the current frame `f`, and
`earliestNextBeatStartFrame` is set to `f + lowMinTimeFrames`. -/
theorem inbeat_to_quiet_spec (p : Params) (f : Nat) (m : ℚ) (s : State)
    (hb : s.detectedBeat = true) :
    ((detectStep p f m s).detectedBeat = false ↔ m < p.fallingThreshold)
    ∧ (m < p.fallingThreshold →
        (detectStep p f m s).lastBeatEnd = s.currBeatEnd ∧
        (detectStep p f m s).currBeatEnd = f ∧
        (detectStep p f m s).earliestNextBeatStart =
          u32add f p.lowMinTime_frames)
    ∧ (¬ m < p.fallingThreshold → detectStep p f m s = s) := by
  have hfirst : ¬(s.detectedBeat = false ∧ f > s.earliestNextBeatStart ∧
      m > p.risingThreshold) := by
    intro hc
    rw [hb] at hc
    exact absurd hc.1 (by simp)
  by_cases hfall : m < p.fallingThreshold
  · have hstep : detectStep p f m s =
        { s with
          detectedBeat := false
          lastBeatEnd := s.currBeatEnd
          currBeatEnd := f
          earliestNextBeatStart := u32add p.lowMinTime_frames f } := by
      unfold detectStep
      rw [if_neg hfirst, if_pos ⟨hb, hfall⟩]
    refine ⟨?_, fun _ => ?_, fun habs => absurd hfall habs⟩
    · rw [hstep]
      simp [hfall]
    · rw [hstep]
      refine ⟨rfl, rfl, ?_⟩
      show u32add p.lowMinTime_frames f = u32add f p.lowMinTime_frames
      unfold u32add
      rw [Nat.add_comm]
  · have hstep : detectStep p f m s = s := by
      unfold detectStep
      rw [if_neg hfirst, if_neg (by
        intro hc
        exact hfall hc.2)]
    refine ⟨?_, fun habs => absurd habs hfall, fun _ => hstep⟩
    rw [hstep, hb]
    simp only [Bool.true_eq_false, false_iff]
    exact hfall

/-- Witness for C4 at concrete input: parameters `cP`, frame 7, magnitude 0,
and the InBeat state obtained by running the Quiet → InBeat transition of
`detectStep` on `initState` at frame 5 with magnitude 1. -/
theorem inbeat_to_quiet_spec_witness :
    (detectStep cP 5 1 initState).detectedBeat = true ∧
    (((detectStep cP 7 0 (detectStep cP 5 1 initState)).detectedBeat = false ↔
        (0 : ℚ) < cP.fallingThreshold)
    ∧ ((0 : ℚ) < cP.fallingThreshold →
        (detectStep cP 7 0 (detectStep cP 5 1 initState)).lastBeatEnd =
          (detectStep cP 5 1 initState).currBeatEnd ∧
        (detectStep cP 7 0 (detectStep cP 5 1 initState)).currBeatEnd = 7 ∧
        (detectStep cP 7 0 (detectStep cP 5 1 initState)).earliestNextBeatStart =
          u32add 7 cP.lowMinTime_frames)
    ∧ (¬ (0 : ℚ) < cP.fallingThreshold →
        detectStep cP 7 0 (detectStep cP 5 1 initState) =
          detectStep cP 5 1 initState)) :=
  ⟨by decide, inbeat_to_quiet_spec cP 7 0 (detectStep cP 5 1 initState) (by decide)⟩

/-! ## C10: the process callback always reports success -/

/-- **C10.** For every buffer size and every input buffer contents (and
every parameter set and starting state), the per-buffer `process` callback
returns the success status 0; the failure branch of the host's
success/failure status is never taken. -/
theorem process_returns_zero (p : Params) (startFrame : Nat) (s : State)
    (input : List ℚ) : (process p startFrame s input).2.2.2 = 0 := by
  unfold process
  rfl

/-! ## C1: period re-measurement and tick cadence -/

/-- **C1.** (a) When a beat start is measured 24000 frames after the
previous one, the recomputed `framesPerClockTick` equals
`24000 / 24 = 1000` and `nextClockTick` is set to the new beat start plus
`framesPerClockTick`.  (b) On a sample with no detector transition, one
clock event is written exactly when the current frame equals
`nextClockTick` and `nDetectedBeats > 4`, after which `nextClockTick`
advances by `framesPerClockTick`.  (c) With `framesPerClockTick = 1000` and
`nDetectedBeats > 4`, every 1000-frame window containing the pending
`nextClockTick` and free of beat re-measurements emits exactly one clock
event, and leaves the state ready for the next window (the next tick due
exactly 1000 frames later). -/
theorem clock_cadence_spec (p : Params) (s : State) (f : Nat) (m : ℚ)
    (t : State) (a : Nat) (y : ℚ)
    (t2 : State) (b : Nat) (zs : List ℚ) :
    -- (a) period re-measurement
    (s.detectedBeat = false → f > s.earliestNextBeatStart →
      m > p.risingThreshold → 1 ≤ s.nDetectedBeats →
      f = s.currBeatStart + 24000 → f < U32 →
        (detectStep p f m s).framesPerClockTick = 1000 ∧
        (detectStep p f m s).nextClockTick = u32add f 1000) ∧
    -- (b) per-sample emission characterization
    (t.detectedBeat = false → ¬ (|y| > p.risingThreshold) →
      ((sampleStep p a y t).2.2 ≠ [] ↔
        (a = t.nextClockTick ∧ t.nDetectedBeats > 4)) ∧
      (a = t.nextClockTick ∧ t.nDetectedBeats > 4 →
        (sampleStep p a y t).2.2.length = 1 ∧
        (sampleStep p a y t).1.nextClockTick =
          u32add a t.framesPerClockTick) ∧
      (¬(a = t.nextClockTick ∧ t.nDetectedBeats > 4) →
        (sampleStep p a y t).2.2 = [] ∧ (sampleStep p a y t).1 = t)) ∧
    -- (c) exactly one event per 1000-frame window
    (t2.detectedBeat = false → (∀ x ∈ zs, ¬ (|x| > p.risingThreshold)) →
      t2.nDetectedBeats > 4 → t2.framesPerClockTick = 1000 →
      zs.length = 1000 → b ≤ t2.nextClockTick →
      t2.nextClockTick < b + 1000 → b + 1000 < U32 →
      t2.nextClockTick + 1000 * 1000 < U32 →
        (processFrom p b t2 zs).2.2.length = 1 ∧
        (processFrom p b t2 zs).1 =
          { t2 with nextClockTick := t2.nextClockTick + 1000 }) := by
  refine ⟨?_, ?_, ?_⟩
  · -- (a)
    intro hq hf hm hn hgap hfU
    have hsub : u32sub f s.currBeatStart = 24000 := by
      rw [hgap]
      have := u32sub_eq_sub (a := s.currBeatStart + 24000) (b := s.currBeatStart)
        (by omega) (by omega)
      rw [this]
      omega
    have hstep : detectStep p f m s =
        { s with
          detectedBeat := true
          nDetectedBeats := s.nDetectedBeats + 1
          beatMaxAmplitude := m
          lastBeatStart := s.currBeatStart
          currBeatStart := f
          framesPerClockTick := u32sub f s.currBeatStart / 24
          nextClockTick := u32add f (u32sub f s.currBeatStart / 24) } := by
      unfold detectStep
      rw [if_pos ⟨hq, hf, hm⟩, if_pos (by dsimp only; omega)]
    rw [hstep]
    dsimp only
    rw [hsub]
    exact ⟨rfl, rfl⟩
  · -- (b)
    intro hq hy
    have hstep : detectStep p a (|y|) t = t :=
      detectStep_quiet_noop p a (|y|) t hq (fun hc2 => hy hc2.2)
    by_cases htick : a = t.nextClockTick ∧ t.nDetectedBeats > 4
    · have h1 : sampleStep p a y t =
          ({ t with nextClockTick := u32add a t.framesPerClockTick }, |y|,
            [{ time := 0, bytes := jbuffer.take 3 }]) := by
        unfold sampleStep tickStep
        dsimp only
        rw [hstep, if_pos htick]
      rw [h1]
      refine ⟨⟨fun _ => htick, fun _ => by simp⟩, fun _ => ⟨rfl, rfl⟩,
        fun habs => absurd htick habs⟩
    · have h1 : sampleStep p a y t = (t, |y|, []) := by
        unfold sampleStep tickStep
        dsimp only
        rw [hstep, if_neg htick]
      rw [h1]
      exact ⟨⟨fun habs => absurd rfl habs, fun hc => absurd hc htick⟩,
        fun hc => absurd hc htick, fun _ => ⟨rfl, rfl⟩⟩
  · -- (c)
    intro hq hzs hc hfpt hlen ht1 ht2 hbU htU
    obtain ⟨hL, hS⟩ := processFrom_cadence_aux p zs b t2 hq hzs hc hfpt ht1
      (by omega) (by omega)
    have hone : (processFrom p b t2 zs).2.2.length = 1 := by
      rw [hL, hlen]
      omega
    refine ⟨hone, ?_⟩
    rw [hS, hone]

/-- Witness for C1 at concrete inputs: (a) a fifth beat at frame 48000 with
the previous beat start at 24000; (b) the state `cTick` at its due tick
frame 12; (c) a 1000-sample silent window starting at frame 10 covering the
tick due at frame 12. -/
theorem clock_cadence_spec_witness :
    ((detectStep cP 48000 1 cMeas).framesPerClockTick = 1000 ∧
      (detectStep cP 48000 1 cMeas).nextClockTick = u32add 48000 1000) ∧
    ((sampleStep cP 12 0 cTick).2.2.length = 1 ∧
      (sampleStep cP 12 0 cTick).1.nextClockTick =
        u32add 12 cTick.framesPerClockTick) ∧
    ((processFrom cP 10 cTick (List.replicate 1000 0)).2.2.length = 1 ∧
      (processFrom cP 10 cTick (List.replicate 1000 0)).1 =
        { cTick with nextClockTick := cTick.nextClockTick + 1000 }) := by
  obtain ⟨hA, hB, hC⟩ :=
    clock_cadence_spec cP cMeas 48000 1 cTick 12 0 cTick 10
      (List.replicate 1000 0)
  refine ⟨hA rfl (by decide) (by decide) (by decide) (by decide) (by decide),
    (hB rfl (by decide)).2.1 ⟨rfl, by decide⟩, ?_⟩
  refine hC rfl ?_ (by decide) rfl (List.length_replicate 1000 0) (by decide)
    (by decide) (by decide) (by decide)
  intro x hx
  rw [List.eq_of_mem_replicate hx]
  decide

/-! ## C5: the refractory frame only advances -/

/-- **C5.** Across every sequence of processed samples and interleaved
control-thread parameter updates, `earliestNextBeatStartFrame` is only
advanced forward: no step of the beat-detector state machine assigns it a
value smaller than its previous value.  Stated for an arbitrary step (the
event `e`) at an arbitrary point of an arbitrary interleaved run: the run
starts Quiet (as the program does), every sample frame before the step is
at most the step's frame (the transport frame counter is monotone), and the
refractory window end does not overflow the 32-bit frame counter. -/
theorem earliest_monotone (p0 : Params) (s0 : State) (l1 : List Ev) (e : Ev)
    (hq : s0.detectedBeat = false)
    (hs : ∀ g x, e = Ev.sample g x →
      samplesLEb g l1 = true ∧
      (runEv l1 (p0, s0)).1.lowMinTime_frames + g < U32) :
    (runEv l1 (p0, s0)).2.earliestNextBeatStart ≤
      (runEv (l1 ++ [e]) (p0, s0)).2.earliestNextBeatStart := by
  rw [runEv_append l1 [e] (p0, s0)]
  cases e with
  | ctrl p2 =>
    rcases hrun : runEv l1 (p0, s0) with ⟨p1, s1⟩
    show s1.earliestNextBeatStart ≤
      (runEv [] (p2, s1)).2.earliestNextBeatStart
    exact le_refl _
  | sample g x =>
    have hinv : (runEv l1 (p0, s0)).2.detectedBeat = true →
        (runEv l1 (p0, s0)).2.earliestNextBeatStart < g :=
      runEv_inv g l1 p0 s0 ((hs g x rfl).1)
        (fun hb => by rw [hq] at hb; exact absurd hb (by simp))
    have hbound := (hs g x rfl).2
    rcases hrun : runEv l1 (p0, s0) with ⟨p1, s1⟩
    rw [hrun] at hinv hbound
    show s1.earliestNextBeatStart ≤
      (runEv [] (p1, (sampleStep p1 g x s1).1)).2.earliestNextBeatStart
    exact sampleStep_earliest_mono p1 g x s1 hinv hbound

/-- Witness for C5 at a concrete run: a beat at frame 5, a control update
of the refractory time, the beat end at frame 8, then a further sample step
at frame 20. -/
theorem earliest_monotone_witness :
    initState.detectedBeat = false ∧
    (runEv cEvs (cP, initState)).2.earliestNextBeatStart ≤
      (runEv (cEvs ++ [Ev.sample 20 1]) (cP, initState)).2.earliestNextBeatStart :=
  ⟨rfl, earliest_monotone cP initState cEvs (Ev.sample 20 1) rfl
    (fun g x h => by
      cases h
      exact ⟨by decide, by decide⟩)⟩

/-! ## C2: the format of emitted MIDI clock events

The claim states each pulse is a single byte `0xF8` with zero-length
payload, time-stamped at the frame offset where the tick falls.  The code
calls `jack_midi_event_write(midi_out_buffer, 0, jbuffer, 3)`: every event
is written with timestamp 0 and three bytes `F8 00 00`, regardless of the
offset at which the tick boundary falls. -/

/-- On any one sample, the MIDI events written are either none or the
single event with timestamp 0 and bytes `F8 00 00`. -/
theorem sampleStep_events (p : Params) (f : Nat) (x : ℚ) (s : State) :
    (sampleStep p f x s).2.2 = [] ∨
    (sampleStep p f x s).2.2 =
      [{ time := 0, bytes := [0xF8, 0, 0] }] := by
  unfold sampleStep tickStep
  dsimp only
  split_ifs
  · right
    rfl
  · left
    rfl

/-- **C2 (counterexample).** In a buffer starting at transport frame 10,
processed from a warmed-up state whose next tick is due at frame 12, the
tick boundary falls at frame offset 2 within the buffer; the single event
actually written has timestamp 0 and the three bytes `F8 00 00`, not the
claimed single zero-payload byte `F8` time-stamped at offset 2. -/
theorem process_event_format_cx :
    (process cP 10 cTick [0, 0, 0]).2.2.1 =
      [{ time := 0, bytes := [0xF8, 0, 0] }] ∧
    (process cP 10 cTick [0, 0, 0]).2.2.1 ≠
      [{ time := 2, bytes := [0xF8] }] := by
  constructor
  · decide
  · decide

/-- **C2 (amended).** Every MIDI event emitted by the `process` callback is
written by `jack_midi_event_write(midi_out_buffer, 0, jbuffer, 3)`: its
event timestamp in the output MIDI buffer is 0 (regardless of the frame
offset within the buffer at which the tick boundary falls) and its payload
is the three bytes `0xF8 0x00 0x00` (the System Real-Time Timing Clock
status byte followed by two zero bytes). -/
theorem process_event_format (p : Params) (startFrame : Nat) (s : State)
    (input : List ℚ) :
    ∀ e ∈ (process p startFrame s input).2.2.1,
      e = { time := 0, bytes := [0xF8, 0, 0] } := by
  unfold process
  dsimp only
  induction input generalizing startFrame s with
  | nil =>
    intro e he
    cases he
  | cons x xs ih =>
    intro e he
    unfold processFrom at he
    dsimp only at he
    rcases List.mem_append.mp he with h1 | h2
    · rcases sampleStep_events p startFrame x s with hn | hs
      · rw [hn] at h1
        cases h1
      · rw [hs] at h1
        rcases List.mem_singleton.mp h1 with rfl
        rfl
    · exact ih (u32add startFrame 1) (sampleStep p startFrame x s).1 e h2

/-- Witness for the amended C2 at concrete input: the run of
`process_event_format_cx` emits one event, and the theorem applies to it. -/
theorem process_event_format_witness :
    ({ time := 0, bytes := [0xF8, 0, 0] } : MidiEvent) ∈
        (process cP 10 cTick [0, 0, 0]).2.2.1 ∧
    ({ time := 0, bytes := [0xF8, 0, 0] } : MidiEvent) =
      { time := 0, bytes := [0xF8, 0, 0] } :=
  ⟨by decide, process_event_format cP 10 cTick [0, 0, 0] _ (by decide)⟩

/-! ## C6: the refractory window suppresses re-triggering -/

/-- **C6.** For every input envelope that rises above `risingThreshold` at
frame 1000 (staying at or below it before, and not falling below
`fallingThreshold` until frame 1200), falls below `fallingThreshold` at
frame 1200, with `lowMinTimeFrames = 500`, the detector detects no new beat
at any frame before 1700 — the beat count stays at 1 — even if the
envelope re-crosses `risingThreshold` at frame 1300 (and stays above it):
the envelope is unconstrained after frame 1200. -/
theorem refractory_spec (p : Params) (m : Nat → ℚ)
    (hlow : p.lowMinTime_frames = 500)
    (h0 : ∀ f, f < 1000 → ¬(|m f| > p.risingThreshold))
    (h1 : |m 1000| > p.risingThreshold)
    (h2 : ∀ f, 1000 ≤ f → f < 1200 → ¬(|m f| < p.fallingThreshold))
    (h3 : |m 1200| < p.fallingThreshold)
    (n : Nat) (hn : n ≤ 1700) :
    (runEnv p m 0 n initState).nDetectedBeats ≤ 1 := by
  by_cases hcase1 : n ≤ 1000
  · -- entirely inside the silent prefix: no beat yet
    obtain ⟨_, hnd, _⟩ := runEnv_quiet_stay p m n 0 initState rfl
      (fun f hf1 hf2 hc => h0 f (by omega) hc.2)
    rw [hnd]
    decide
  · -- the beat at frame 1000 happened
    obtain ⟨ha_db, ha_nd, ha_e⟩ := runEnv_quiet_stay p m 1000 0 initState rfl
      (fun f hf1 hf2 hc => h0 f (by omega) hc.2)
    set SA := runEnv p m 0 1000 initState with hSAdef
    have ha_e0 : SA.earliestNextBeatStart = 0 := ha_e
    have ha_nd0 : SA.nDetectedBeats = 0 := ha_nd
    have htrig : detectStep p 1000 (|m 1000|) SA =
        { SA with
          detectedBeat := true
          nDetectedBeats := SA.nDetectedBeats + 1
          beatMaxAmplitude := |m 1000|
          lastBeatStart := SA.currBeatStart
          currBeatStart := 1000 } :=
      detectStep_trigger_first p 1000 (|m 1000|) SA ha_db
        (by rw [ha_e0]; omega) h1 ha_nd0
    set SB := (sampleStep p 1000 (m 1000) SA).1 with hSBdef
    have hSBtick : SB = (tickStep 1000 (detectStep p 1000 (|m 1000|) SA)).1 := by
      rw [hSBdef]
      exact sampleStep_fst p 1000 (m 1000) SA
    have htsB := tickStep_fields 1000 (detectStep p 1000 (|m 1000|) SA)
    have hSB_db : SB.detectedBeat = true := by
      rw [hSBtick, htsB.1, htrig]
    have hSB_nd : SB.nDetectedBeats = 1 := by
      rw [hSBtick, htsB.2.1, htrig]
      show SA.nDetectedBeats + 1 = 1
      rw [ha_nd0]
    have hS1001 : runEnv p m 0 1001 initState = SB := by
      have hsplit := runEnv_add p m 1000 1 0 initState
      rw [show (1000 : Nat) + 1 = 1001 from rfl,
        show (0 : Nat) + 1000 = 1000 from rfl] at hsplit
      rw [hsplit, runEnv_one, ← hSAdef, ← hSBdef]
    by_cases hcase2 : n ≤ 1200
    · -- inside the beat: count stays 1
      obtain ⟨_, hnd2, _, _⟩ := runEnv_inbeat_stay p m (n - 1001) 1001 SB
        hSB_db (fun f hf1 hf2 hc => h2 f (by omega) (by omega) hc)
      have hn' : n = 1001 + (n - 1001) := by omega
      have hsplit2 := runEnv_add p m 1001 (n - 1001) 0 initState
      rw [show (0 : Nat) + 1001 = 1001 from rfl, hS1001] at hsplit2
      conv_lhs => rw [hn']
      rw [hsplit2, hnd2, hSB_nd]
    · -- the beat ended at frame 1200; refractory window to 1700
      obtain ⟨hc_db, hc_nd, _, _⟩ := runEnv_inbeat_stay p m 199 1001 SB
        hSB_db (fun f hf1 hf2 hc => h2 f (by omega) (by omega) hc)
      set SC := runEnv p m 1001 199 SB with hSCdef
      have hfall : detectStep p 1200 (|m 1200|) SC =
          { SC with
            detectedBeat := false
            lastBeatEnd := SC.currBeatEnd
            currBeatEnd := 1200
            earliestNextBeatStart := u32add p.lowMinTime_frames 1200 } :=
        detectStep_fall p 1200 (|m 1200|) SC hc_db h3
      set SD := (sampleStep p 1200 (m 1200) SC).1 with hSDdef
      have hSDtick : SD = (tickStep 1200 (detectStep p 1200 (|m 1200|) SC)).1 := by
        rw [hSDdef]
        exact sampleStep_fst p 1200 (m 1200) SC
      have htsD := tickStep_fields 1200 (detectStep p 1200 (|m 1200|) SC)
      have hSD_db : SD.detectedBeat = false := by
        rw [hSDtick, htsD.1, hfall]
      have hSD_nd : SD.nDetectedBeats = 1 := by
        rw [hSDtick, htsD.2.1,
          detectStep_fall_nd p 1200 (|m 1200|) SC hc_db h3, hc_nd, hSB_nd]
      have hSD_e : SD.earliestNextBeatStart = 1700 := by
        rw [hSDtick, htsD.2.2.1,
          detectStep_fall_e p 1200 (|m 1200|) SC hc_db h3, hlow]
        decide
      have hS1200 : runEnv p m 0 1200 initState = SC := by
        have hsplit := runEnv_add p m 1001 199 0 initState
        rw [show (1001 : Nat) + 199 = 1200 from rfl,
          show (0 : Nat) + 1001 = 1001 from rfl] at hsplit
        rw [hsplit, hS1001, ← hSCdef]
      have hS1201 : runEnv p m 0 1201 initState = SD := by
        have hsplit := runEnv_add p m 1200 1 0 initState
        rw [show (1200 : Nat) + 1 = 1201 from rfl,
          show (0 : Nat) + 1200 = 1200 from rfl] at hsplit
        rw [hsplit, hS1200, runEnv_one, ← hSDdef]
      obtain ⟨_, hnd3, _⟩ := runEnv_quiet_stay p m (n - 1201) 1201 SD hSD_db
        (fun f hf1 hf2 hc => by
          rw [hSD_e] at hc
          exact absurd hc.1 (by omega))
      have hn' : n = 1201 + (n - 1201) := by omega
      have hsplit3 := runEnv_add p m 1201 (n - 1201) 0 initState
      rw [show (0 : Nat) + 1201 = 1201 from rfl, hS1201] at hsplit3
      conv_lhs => rw [hn']
      rw [hsplit3, hnd3, hSD_nd]

/-- Witness for C6: a concrete square envelope at magnitude 1/2 on
`[1000, 1200) ∪ [1300, ∞)` and 0 elsewhere, with thresholds `cP` and the
full 1700-frame run. -/
theorem refractory_spec_witness :
    cP.lowMinTime_frames = 500 ∧
    (runEnv cP
        (fun f => if (1000 ≤ f ∧ f < 1200) ∨ 1300 ≤ f then mkRat 1 2 else 0)
        0 1700 initState).nDetectedBeats ≤ 1 := by
  refine ⟨rfl, refractory_spec cP
    (fun f => if (1000 ≤ f ∧ f < 1200) ∨ 1300 ≤ f then mkRat 1 2 else 0)
    rfl ?_ (by decide) ?_ (by decide) 1700 (le_refl 1700)⟩
  · intro f hf hc
    dsimp only at hc
    rw [if_neg (by omega : ¬((1000 ≤ f ∧ f < 1200) ∨ 1300 ≤ f))] at hc
    exact absurd hc (by decide)
  · intro f hf1 hf2 hc
    dsimp only at hc
    rw [if_pos (Or.inl ⟨hf1, hf2⟩ : (1000 ≤ f ∧ f < 1200) ∨ 1300 ≤ f)] at hc
    exact absurd hc (by decide)

/-! ## C7: control-thread clamping

The claim states that after every update step `fallingThreshold_dB` lies in
`[−100, risingThreshold_dB]`.  The code violates this: `risingThreshold_dB`
is not clamped from below, and once it goes below −100 the final clamp
`fallingThreshold_dB = risingThreshold_dB` drags the falling threshold
below −100 (the claimed interval is then empty). -/

theorem clampRising_eq (c : CtrlState) :
    clampRising c = { c with risingThreshold_dB := min c.risingThreshold_dB 0 } := by
  unfold clampRising
  split_ifs with h
  · rw [min_eq_right h.le]
  · rw [min_eq_left (not_lt.mp h)]

theorem clampFallingLower_eq (c : CtrlState) :
    clampFallingLower c =
      { c with fallingThreshold_dB := max c.fallingThreshold_dB (-100) } := by
  unfold clampFallingLower
  split_ifs with h
  · rw [max_eq_right h.le]
  · rw [max_eq_left (not_lt.mp h)]

theorem clampFallingUpper_eq (c : CtrlState) :
    clampFallingUpper c =
      { c with fallingThreshold_dB := min c.fallingThreshold_dB c.risingThreshold_dB } := by
  unfold clampFallingUpper
  split_ifs with h
  · rw [min_eq_right h.le]
  · rw [min_eq_left (not_lt.mp h)]

theorem clampLowMin_eq (c : CtrlState) :
    clampLowMin c = { c with lowMinTime_ms := max c.lowMinTime_ms 0 } := by
  unfold clampLowMin
  split_ifs with h
  · rw [max_eq_right h.le]
  · rw [max_eq_left (not_lt.mp h)]

/-- The whole clamping pass, as one record equation. -/
theorem clampPass_eq (c : CtrlState) :
    clampPass c =
      { risingThreshold_dB := min c.risingThreshold_dB 0
        fallingThreshold_dB :=
          min (max c.fallingThreshold_dB (-100)) (min c.risingThreshold_dB 0)
        lowMinTime_ms := max c.lowMinTime_ms 0
        selectedParameterIndex := c.selectedParameterIndex } := by
  unfold clampPass
  simp only [clampRising_eq, clampFallingLower_eq, clampFallingUpper_eq,
    clampLowMin_eq]

/-- **C7 (counterexample).** The stored state with
`risingThreshold_dB = fallingThreshold_dB = −100` is a fixed point of the
clamping pass (so it is a valid post-update state, and it is reachable from
the defaults by repeated large decrements of the rising threshold), yet one
further large decrement of the selected rising threshold leaves
`fallingThreshold_dB = −101 < −100`, outside the claimed range
`[−100, risingThreshold_dB]`. -/
theorem ctrl_ranges_cx :
    clampPass ⟨-100, -100, 20, 0⟩ = ⟨-100, -100, 20, 0⟩ ∧
    (ctrlStep Key.decLarge ⟨-100, -100, 20, 0⟩).fallingThreshold_dB < -100 := by
  have h1 : applyKey Key.decLarge ⟨-100, -100, 20, 0⟩ = ⟨-101, -100, 20, 0⟩ := by
    unfold applyKey adjustSelected
    norm_num
  constructor
  · rw [clampPass_eq]
    norm_num [min_def, max_def]
  · unfold ctrlStep
    rw [h1, clampPass_eq]
    norm_num [min_def, max_def]

/-- **C7 (amended).** After every control-thread update step (any
keystroke-driven increment or decrement followed by the clamping pass), no
error is raised (the update is a total function) and the stored values
satisfy: `risingThreshold_dB ≤ 0`, `fallingThreshold_dB ≤
risingThreshold_dB`, `fallingThreshold_dB ≥ min (−100) risingThreshold_dB`
(hence `fallingThreshold_dB ∈ [−100, risingThreshold_dB]` whenever
`risingThreshold_dB ≥ −100`), and `lowMinTime_ms ≥ 0`. -/
theorem ctrlStep_ranges (k : Key) (c : CtrlState) :
    (ctrlStep k c).risingThreshold_dB ≤ 0 ∧
    (ctrlStep k c).fallingThreshold_dB ≤ (ctrlStep k c).risingThreshold_dB ∧
    min (-100) (ctrlStep k c).risingThreshold_dB ≤
      (ctrlStep k c).fallingThreshold_dB ∧
    0 ≤ (ctrlStep k c).lowMinTime_ms := by
  unfold ctrlStep
  rw [clampPass_eq]
  refine ⟨min_le_right _ _, min_le_right _ _, ?_, le_max_right _ _⟩
  exact le_min
    (le_trans (min_le_left _ _) (le_max_right _ _))
    (min_le_right _ _)

end Metronome
